import Mathlib

/-!
# Verification of `EncodingConverter.h` (Head-Only repository)

A shallow embedding of the batch text-encoding conversion engine in
`src/EncodingConverter.h`, together with theorems settling the frozen
claims about its specification.

Modelling conventions:
* File contents are modelled as Lean `String`s (the C++ code reads bytes
  into a `std::string` and treats them opaquely).
* The external libraries `uchardet` (charset detection) and ICU
  (`ucnv_convert`) are modelled as oracle functions supplied as
  parameters, covering every observable behaviour the C++ code
  distinguishes (failure to initialise / handle data, a NULL charset,
  an arbitrary charset string; ICU success with output bytes or failure
  with an error name).
* `std::regex` (ECMAScript, `icase`, `regex_match`) is an external
  library as well; the patterns the converter builds are
  `"^.*\\.(" + filter + ")$"` and `"^(" + filter + ")$"`, whose
  user-supplied part the spec restricts to alternations of extension /
  encoding-name tokens.  We model compilation for that fragment: a
  filter that is an alternation of literal tokens over `[A-Za-z0-9_-]`
  (alternatives may be empty) compiles, and anything else is modelled as
  `std::regex_error`, i.e. a malformed pattern.  Matching is given by a
  genuine Brzozowski-derivative regular-expression matcher over an AST
  containing exactly the constructs the built patterns use, and the
  `icase` flag is modelled by ASCII-lowering both pattern and subject.
* `throw` / `try`-`catch` is modelled with `Except`; the catch blocks at
  each file job's boundary turn a thrown error into a `failed` outcome.
* The fire-and-forget `std::async` tasks of `convert` are modelled by a
  scheduling function `sched` that serialises the dispatched jobs in an
  arbitrary order: every task touches only its own file, so any true
  interleaving is observationally equivalent to some serialisation.
-/

/-- ASCII lowering of one character, as `::tolower` in the "C" locale
acts on the ASCII range (the code lowers encoding names with
`std::transform(..., ::tolower)` and `std::regex` lowers via `icase`). -/
def lowerChar (c : Char) : Char :=
  if 'A' ≤ c ∧ c ≤ 'Z' then Char.ofNat (c.toNat + 32) else c

/-- ASCII lowering of a string. -/
def lowerStr (s : String) : String := ⟨s.data.map lowerChar⟩

/-! ## A regular-expression matcher for the patterns the converter builds

The AST has exactly the constructs occurring in
`^.*\.(a₁|…|aₙ)$` and `^(a₁|…|aₙ)$` with literal alternatives `aᵢ`:
the empty language, the empty word, a literal character, alternation,
concatenation, and `allstr` for `.*` (on inputs without line
terminators, `.*` matches every string).  `regex_match` is a full
anchored match, so the explicit anchors add nothing. -/

inductive Rx : Type
  | emp : Rx
  | eps : Rx
  | chr : Char → Rx
  | alt : Rx → Rx → Rx
  | cat : Rx → Rx → Rx
  | allstr : Rx
deriving DecidableEq

namespace Rx

/-- The language of a regular expression. -/
def Lang : Rx → List Char → Prop
  | .emp, _ => False
  | .eps, s => s = []
  | .chr c, s => s = [c]
  | .alt a b, s => Lang a s ∨ Lang b s
  | .cat a b, s => ∃ s₁ s₂, s₁ ++ s₂ = s ∧ Lang a s₁ ∧ Lang b s₂
  | .allstr, _ => True

/-- Does the expression accept the empty word? -/
def nullable : Rx → Bool
  | .emp => false
  | .eps => true
  | .chr _ => false
  | .alt a b => nullable a || nullable b
  | .cat a b => nullable a && nullable b
  | .allstr => true

/-- Brzozowski derivative. -/
def deriv : Rx → Char → Rx
  | .emp, _ => .emp
  | .eps, _ => .emp
  | .chr c, d => if c = d then .eps else .emp
  | .alt a b, d => .alt (deriv a d) (deriv b d)
  | .cat a b, d =>
      if nullable a then .alt (.cat (deriv a d) b) (deriv b d)
      else .cat (deriv a d) b
  | .allstr, _ => .allstr

/-- Executable matcher. -/
def rmatch : Rx → List Char → Bool
  | r, [] => nullable r
  | r, c :: s => rmatch (deriv r c) s

/-- The regular expression matching exactly the literal word `l`. -/
def lit (l : List Char) : Rx := l.foldr (fun c r => .cat (.chr c) r) .eps

/-- Alternation `(a₁|…|aₙ)` of literal alternatives. -/
def altsRx (ls : List (List Char)) : Rx :=
  ls.foldr (fun l r => .alt (lit l) r) .emp

/-- The pattern `^.*\.(a₁|…|aₙ)$` built by `shouldProcessFile`. -/
def fileRx (ls : List (List Char)) : Rx :=
  .cat .allstr (.cat (.chr '.') (altsRx ls))

end Rx

/-! ## Filter patterns

The converter hands `std::regex` the patterns `"^.*\\.(" + filter + ")$"`
(`shouldProcessFile`, filename filtering) and `"^(" + filter + ")$"`
(`detectEncoding`, source-encoding filtering), both ECMAScript with
`icase`, matched with `std::regex_match` (full match).  The
user-supplied `filter` is an alternation of literal tokens (file
extensions or encoding names).  `parseAlts` models compilation of that
fragment: alternatives drawn from `[A-Za-z0-9_-]` (possibly empty)
compile to the list of alternatives, anything else is modelled as the
`std::regex_error` that a malformed pattern such as `"("` raises. -/

/-- Characters a literal alternative may consist of. -/
def litChar (c : Char) : Bool := c.isAlphanum || c = '-' || c = '_'

/-- Split a pattern at its top-level `|` alternation bars. -/
def splitAlts : List Char → List (List Char)
  | [] => [[]]
  | c :: rest =>
    if c = '|' then [] :: splitAlts rest
    else
      match splitAlts rest with
      | [] => [[c]]
      | a :: as => (c :: a) :: as

/-- Compilation of the user-supplied part of the converter's patterns:
`some` alternatives on success, `none` for a malformed pattern. -/
def parseAlts (filter : String) : Option (List String) :=
  let alts := (splitAlts filter.data).map fun l => (⟨l⟩ : String)
  if alts.all (fun a => a.data.all litChar) then some alts else none

/-- Case-insensitive full match of `candidate` against
`^(a₁|…|aₙ)$` — the match `detectEncoding` performs. -/
def encMatch (alts : List String) (candidate : String) : Bool :=
  Rx.rmatch (Rx.altsRx (alts.map fun a => (lowerStr a).data))
    (lowerStr candidate).data

/-- Case-insensitive full match of `fileName` against
`^.*\.(a₁|…|aₙ)$` — the match `shouldProcessFile` performs. -/
def fileMatch (alts : List String) (fileName : String) : Bool :=
  Rx.rmatch (Rx.fileRx (alts.map fun a => (lowerStr a).data))
    (lowerStr fileName).data

/-! ## The encoding-name normalizer (`mapEncodingName`) -/

/-- `EncodingConverter::mapEncodingName`: empty input is returned as is;
otherwise the ASCII-lowered input is looked up in the fixed alias
table, and unrecognized input is returned unchanged (after a warning
log). -/
def mapEncodingName (encoding : String) : String :=
  if encoding = "" then encoding
  else
    let lowerEncoding := lowerStr encoding
    if lowerEncoding = "windows-1252" ∨ lowerEncoding = "windows1252" then "windows-1252"
    else if lowerEncoding = "iso-8859-1" ∨ lowerEncoding = "iso8859-1" then "ISO-8859-1"
    else if lowerEncoding = "utf-8" ∨ lowerEncoding = "utf8" then "UTF-8"
    else if lowerEncoding = "gbk" then "GBK"
    else if lowerEncoding = "gb18030" then "GB18030"
    else if lowerEncoding = "ascii" then "ASCII"
    else if lowerEncoding = "big5" then "Big5"
    else if lowerEncoding = "utf-16le" ∨ lowerEncoding = "utf16le" then "UTF-16LE"
    else if lowerEncoding = "utf-16be" ∨ lowerEncoding = "utf16be" then "UTF-16BE"
    else encoding

/-- The keys of the alias table: the inputs `mapEncodingName` resolves
through its registry (up to case). -/
def aliasKeys : List String :=
  ["windows-1252", "windows1252", "iso-8859-1", "iso8859-1",
   "utf-8", "utf8", "gbk", "gb18030", "ascii", "big5",
   "utf-16le", "utf16le", "utf-16be", "utf16be"]

/-- Is the encoding name resolvable by the normalizer's registry
(case-insensitively)? -/
def inRegistry (encoding : String) : Bool :=
  aliasKeys.contains (lowerStr encoding)

/-- Decidable equality for `Except`, so that concrete pipeline results
can be evaluated by `decide`. -/
instance {ε α : Type} [DecidableEq ε] [DecidableEq α] :
    DecidableEq (Except ε α) := fun a b =>
  match a, b with
  | .error e, .error f =>
    if h : e = f then .isTrue (by rw [h])
    else .isFalse (fun hc => h (Except.error.inj hc))
  | .ok x, .ok y =>
    if h : x = y then .isTrue (by rw [h])
    else .isFalse (fun hc => h (Except.ok.inj hc))
  | .error _, .ok _ => .isFalse (fun hc => Except.noConfusion hc)
  | .ok _, .error _ => .isFalse (fun hc => Except.noConfusion hc)

/-! ## Data model of a run -/

/-- What `fs::is_directory` / `fs::is_regular_file` report for the root
path. -/
inductive PathKind : Type
  | dir : PathKind
  | file : PathKind
  | other : PathKind
deriving DecidableEq

/-- One entry yielded by `fs::recursive_directory_iterator`. -/
structure Entry : Type where
  path : String
  fileName : String
  isRegular : Bool
deriving DecidableEq

/-- The filesystem provider: the kind of the root, the root's filename
component (used when the root is a single regular file), the recursive
enumeration of the root (used when it is a directory), the readable
contents (`none` models `std::ifstream` failing to open), and whether
`std::ofstream` can open a path for writing. -/
structure FS : Type where
  kind : PathKind
  rootFileName : String
  entries : List Entry
  contents : String → Option String
  writable : String → Bool

/-- Oracles for the two external libraries.
`detect` models one `uchardet` session over a whole buffer: `.error`
is a failed `uchardet_new` / `uchardet_handle_data` (both thrown),
`.ok none` a NULL `uchardet_get_charset`, `.ok (some cs)` a detected
charset string.  `ucnv toEnc fromEnc input` models `ucnv_convert`:
converted bytes on success, the ICU error name on failure. -/
structure Oracles : Type where
  detect : String → Except String (Option String)
  ucnv : String → String → String → Except String String

/-- The `ConversionRequest`: the four arguments of
`convert` / `convert_single`. -/
structure Request : Type where
  path : String
  toEncoding : String
  sourceEncodingFilter : String
  fileFilter : String

/-- File-scoped conditions thrown inside one file's pipeline (all are
`std::runtime_error`s in the source). -/
inductive FileErr : Type
  | readError : String → FileErr
  | detectorFail : String → FileErr
  | invalidSrcFilter : String → FileErr
  | transcodeError : String → FileErr
  | writeError : String → FileErr
deriving DecidableEq

/-- The per-file outcome, reconstructed from the log line each code path
emits.  The source logs a single "encoding issues" skip for both the
`"UNKNOWN"` and the `"MISMATCH"` sentinel; we keep them apart since the
sentinels are distinct values. -/
inductive Status : Type
  | converted : String → String → Status
  | skippedFilenameMismatch : Status
  | skippedUndetectable : Status
  | skippedEncodingMismatch : Status
  | skippedUnsupportedSource : String → Status
  | failed : FileErr → Status
deriving DecidableEq

/-- Request-fatal errors: the `std::runtime_error`s that escape
`convert` / `convert_single` themselves. -/
inductive RunError : Type
  | unsupportedTarget : String → RunError
  | invalidFilter : String → RunError
  | invalidPath : String → RunError
deriving DecidableEq

/-! ## The per-file pipeline -/

/-- `EncodingConverter::shouldProcessFile`: an empty filter accepts
everything; otherwise the filename is matched against
`^.*\.(filter)$` (`icase`), and a malformed filter throws. -/
def shouldProcessFile (fileName filter : String) : Except RunError Bool :=
  if filter = "" then .ok true
  else
    match parseAlts filter with
    | none => .error (.invalidFilter filter)
    | some alts => .ok (fileMatch alts fileName)

/-- `EncodingConverter::detectEncoding`: run the detector (failures
throw); a NULL charset becomes `"UNKNOWN"`; when a non-empty source
filter is configured and the result is not `"UNKNOWN"`, match it
against `^(filter)$` (`icase`) — a malformed filter throws, a failed
match yields the `"MISMATCH"` sentinel. -/
def detectEncoding (orc : Oracles) (data encodingFilter : String) :
    Except FileErr String :=
  match orc.detect data with
  | .error e => .error (.detectorFail e)
  | .ok cs =>
    let result := match cs with | none => "UNKNOWN" | some s => s
    if encodingFilter ≠ "" ∧ result ≠ "UNKNOWN" then
      match parseAlts encodingFilter with
      | none => .error (.invalidSrcFilter encodingFilter)
      | some alts => if encMatch alts result then .ok result else .ok "MISMATCH"
    else .ok result

/-- `EncodingConverter::convertFile`, acting on the one file it touches:
given whether the path is writable and the readable content of the path
(`none` = `ifstream` open failure), produce the file's content
afterwards, the normal result or the thrown error, and whether the
`ofstream` write stage was reached.  The source reads the whole file,
detects, skips on the `"UNKNOWN"`/`"MISMATCH"` sentinels, skips when
the detected name maps to the empty string, transcodes (failures
rethrown), and only then opens the file for writing and rewrites it. -/
def convertFileStep (orc : Oracles) (w : Bool) (oc : Option String)
    (path toEncoding srcFilter : String) :
    Option String × Except FileErr Status × Bool :=
  match oc with
  | none => (oc, .error (.readError path), false)
  | some fileContent =>
    match detectEncoding orc fileContent srcFilter with
    | .error e => (oc, .error e, false)
    | .ok detectedEncoding =>
      if detectedEncoding = "UNKNOWN" then (oc, .ok .skippedUndetectable, false)
      else if detectedEncoding = "MISMATCH" then (oc, .ok .skippedEncodingMismatch, false)
      else
        let mappedDetectedEncoding := mapEncodingName detectedEncoding
        if mappedDetectedEncoding = "" then
          (oc, .ok (.skippedUnsupportedSource detectedEncoding), false)
        else
          match orc.ucnv toEncoding mappedDetectedEncoding fileContent with
          | .error e => (oc, .error (.transcodeError e), false)
          | .ok convertedContent =>
            if w then (some convertedContent,
                       .ok (.converted mappedDetectedEncoding toEncoding), true)
            else (oc, .error (.writeError path), true)

/-- One dispatched task: `convertFile` on its own path, wrapped in the
`try { … } catch (const std::exception& e)` at the job boundary, which
turns every thrown file-scoped error into a logged (`failed`) outcome.
Returns the updated contents map, the outcome, and whether the write
stage was reached. -/
def runJob (orc : Oracles) (wr : String → Bool) (toEncoding srcFilter : String)
    (c : String → Option String) (p : String) :
    (String → Option String) × Status × Bool :=
  let r := convertFileStep orc (wr p) (c p) p toEncoding srcFilter
  (fun q => if q = p then r.1 else c q,
   (match r.2.1 with | .ok st => st | .error e => .failed e),
   r.2.2)

/-- Run the dispatched jobs in the given order, threading the contents
map; returns the final contents, the `(path, outcome)` list and the
list of paths opened for writing.  Every job in the list is also a path
opened for reading. -/
def runJobs (orc : Oracles) (wr : String → Bool) (toEncoding srcFilter : String) :
    (String → Option String) → List String →
    (String → Option String) × List (String × Status) × List String
  | c, [] => (c, [], [])
  | c, p :: rest =>
    let r := runJob orc wr toEncoding srcFilter c p
    let rr := runJobs orc wr toEncoding srcFilter r.1 rest
    (rr.1, (p, r.2.1) :: rr.2.1, (if r.2.2 then [p] else []) ++ rr.2.2)

/-! ## The two schedulers -/

/-- The result of one `convert` / `convert_single` call.
`err` is the `std::runtime_error` escaping the call, if any; `outcomes`
collects the per-file outcomes (from log lines); `reads` the paths
opened for reading, `writes` the paths opened for writing; `contents`
the file contents after the run. -/
structure RunResult : Type where
  err : Option RunError
  outcomes : List (String × Status)
  reads : List String
  writes : List String
  contents : String → Option String

/-- The enumeration loop of `convert` over a directory: walk the
entries, skip non-regular ones with a warning, filter regular ones by
filename (a malformed filter throws out of the loop), record a skip
outcome for mismatches and collect the paths dispatched as jobs.
No file is opened during this phase. -/
def planEntries (fileFilter : String) :
    List Entry → Except RunError (List (String × Status) × List String)
  | [] => .ok ([], [])
  | e :: rest =>
    if e.isRegular then
      match shouldProcessFile e.fileName fileFilter with
      | .error er => .error er
      | .ok true =>
        (planEntries fileFilter rest).map fun r => (r.1, e.path :: r.2)
      | .ok false =>
        (planEntries fileFilter rest).map fun r =>
          ((e.path, .skippedFilenameMismatch) :: r.1, r.2)
    else planEntries fileFilter rest

/-- `EncodingConverter::convert` (the `std::async` scheduler).  The
target encoding is normalized first; an empty mapping throws.  For a
directory root, the enumeration loop dispatches one task per surviving
file and the trailing `future.get()` loop drains them all; `sched`
serialises the dispatched tasks in the order the runtime happens to
execute them.  For a regular-file root the single file is processed on
the calling thread inside the same try/catch; any other root throws. -/
def convert (orc : Oracles) (fs : FS) (req : Request)
    (sched : List String → List String) : RunResult :=
  let mappedToEncoding := mapEncodingName req.toEncoding
  if mappedToEncoding = "" then
    ⟨some (.unsupportedTarget req.toEncoding), [], [], [], fs.contents⟩
  else
    match fs.kind with
    | .dir =>
      match planEntries req.fileFilter fs.entries with
      | .error er => ⟨some er, [], [], [], fs.contents⟩
      | .ok plan =>
        let js := sched plan.2
        let r := runJobs orc fs.writable mappedToEncoding
          req.sourceEncodingFilter fs.contents js
        ⟨none, plan.1 ++ r.2.1, js, r.2.2, r.1⟩
    | .file =>
      match shouldProcessFile fs.rootFileName req.fileFilter with
      | .error er => ⟨some er, [], [], [], fs.contents⟩
      | .ok true =>
        let r := runJobs orc fs.writable mappedToEncoding
          req.sourceEncodingFilter fs.contents [req.path]
        ⟨none, r.2.1, [req.path], r.2.2, r.1⟩
      | .ok false =>
        ⟨none, [(req.path, .skippedFilenameMismatch)], [], [], fs.contents⟩
    | .other => ⟨some (.invalidPath req.path), [], [], [], fs.contents⟩

/-- The inner loop of `convert_single` over the directory enumeration:
identical to `convert`'s loop except that each surviving file is
processed inline, on the calling thread, before the next entry is
examined.  Returns contents, outcomes, reads, writes and the error
escaping the loop, if any (side effects of the entries already
processed are retained). -/
def runEntriesSingle (orc : Oracles) (wr : String → Bool)
    (toEncoding srcFilter fileFilter : String) :
    (String → Option String) → List Entry →
    (String → Option String) × List (String × Status) × List String ×
      List String × Option RunError
  | c, [] => (c, [], [], [], none)
  | c, e :: rest =>
    if e.isRegular then
      match shouldProcessFile e.fileName fileFilter with
      | .error er => (c, [], [], [], some er)
      | .ok true =>
        let r := runJob orc wr toEncoding srcFilter c e.path
        let rr := runEntriesSingle orc wr toEncoding srcFilter fileFilter r.1 rest
        (rr.1, (e.path, r.2.1) :: rr.2.1, e.path :: rr.2.2.1,
         (if r.2.2 then [e.path] else []) ++ rr.2.2.2.1, rr.2.2.2.2)
      | .ok false =>
        let rr := runEntriesSingle orc wr toEncoding srcFilter fileFilter c rest
        (rr.1, (e.path, .skippedFilenameMismatch) :: rr.2.1, rr.2.2.1,
         rr.2.2.2.1, rr.2.2.2.2)
    else runEntriesSingle orc wr toEncoding srcFilter fileFilter c rest

/-- `EncodingConverter::convert_single` (the strictly sequential
scheduler): the same validation, enumeration, filtering and per-file
pipeline as `convert`, with each surviving file processed inline. -/
def convert_single (orc : Oracles) (fs : FS) (req : Request) : RunResult :=
  let mappedToEncoding := mapEncodingName req.toEncoding
  if mappedToEncoding = "" then
    ⟨some (.unsupportedTarget req.toEncoding), [], [], [], fs.contents⟩
  else
    match fs.kind with
    | .dir =>
      let r := runEntriesSingle orc fs.writable mappedToEncoding
        req.sourceEncodingFilter req.fileFilter fs.contents fs.entries
      ⟨r.2.2.2.2, r.2.1, r.2.2.1, r.2.2.2.1, r.1⟩
    | .file =>
      match shouldProcessFile fs.rootFileName req.fileFilter with
      | .error er => ⟨some er, [], [], [], fs.contents⟩
      | .ok true =>
        let r := runJobs orc fs.writable mappedToEncoding
          req.sourceEncodingFilter fs.contents [req.path]
        ⟨none, r.2.1, [req.path], r.2.2, r.1⟩
      | .ok false =>
        ⟨none, [(req.path, .skippedFilenameMismatch)], [], [], fs.contents⟩
    | .other => ⟨some (.invalidPath req.path), [], [], [], fs.contents⟩

/-! ## Concrete fixtures used by witnesses and counterexamples -/

/-- An oracle pair whose detector always reports `UTF-8` and whose
converter appends a marker byte (so conversions visibly change the
content). -/
def demoOracles : Oracles :=
  { detect := fun _ => .ok (some "UTF-8"),
    ucnv := fun _ _ s => .ok (s ++ "!") }

/-- An oracle pair whose detector always reports `UTF-8` but whose
converter always fails (an ICU error on every file). -/
def failOracles : Oracles :=
  { detect := fun _ => .ok (some "UTF-8"),
    ucnv := fun _ _ _ => .error "U_INVALID_CHAR_FOUND" }

/-- A three-file directory tree. -/
def demoFS : FS :=
  { kind := .dir,
    rootFileName := "d",
    entries := [⟨"/d/a.txt", "a.txt", true⟩, ⟨"/d/b.md", "b.md", true⟩,
                ⟨"/d/c.csv", "c.csv", true⟩],
    contents := fun p =>
      if p = "/d/a.txt" then some "hello"
      else if p = "/d/b.md" then some "world"
      else if p = "/d/c.csv" then some "zzz" else none,
    writable := fun _ => true }

/-! ## Basic lemmas -/

theorem lowerStr_empty : lowerStr "" = "" := rfl

theorem lowerStr_eq_empty_iff (s : String) : lowerStr s = "" ↔ s = "" := by
  constructor
  · intro h
    rcases s with ⟨l⟩
    cases l with
    | nil => rfl
    | cons c cs => simp [lowerStr, String.ext_iff] at h
  · intro h; subst h; rfl

namespace Rx

theorem nullable_iff (r : Rx) : nullable r = true ↔ Lang r [] := by
  induction r with
  | emp => simp [nullable, Lang]
  | eps => simp [nullable, Lang]
  | chr c => simp [nullable, Lang]
  | alt a b iha ihb => simp [nullable, Lang, iha, ihb]
  | cat a b iha ihb =>
      simp only [nullable, Lang, Bool.and_eq_true, iha, ihb]
      constructor
      · rintro ⟨ha, hb⟩; exact ⟨[], [], rfl, ha, hb⟩
      · rintro ⟨s₁, s₂, h, ha, hb⟩
        rcases List.append_eq_nil.mp h with ⟨h₁, h₂⟩
        subst h₁; subst h₂; exact ⟨ha, hb⟩
  | allstr => simp [nullable, Lang]

theorem deriv_lang (r : Rx) (c : Char) (s : List Char) :
    Lang (deriv r c) s ↔ Lang r (c :: s) := by
  induction r generalizing s with
  | emp => simp [deriv, Lang]
  | eps => simp [deriv, Lang]
  | chr d =>
      by_cases h : d = c
      · subst h; simp [deriv, Lang]
      · simp only [deriv, if_neg h, Lang]
        constructor
        · intro hf
          exact hf.elim
        · intro he
          injection he with h₁ _
          exact absurd h₁.symm h
  | alt a b iha ihb => simp [deriv, Lang, iha, ihb]
  | cat a b iha ihb =>
      by_cases hn : nullable a
      · simp only [deriv, if_pos hn, Lang, iha, ihb]
        constructor
        · rintro (⟨s₁, s₂, rfl, ha, hb⟩ | hb)
          · exact ⟨c :: s₁, s₂, rfl, ha, hb⟩
          · exact ⟨[], c :: s, rfl, (nullable_iff a).mp hn, hb⟩
        · rintro ⟨s₁, s₂, h, ha, hb⟩
          cases s₁ with
          | nil =>
              right
              simp only [List.nil_append] at h
              subst h
              exact hb
          | cons d t =>
              left
              rw [List.cons_append] at h
              obtain ⟨h₁, h₂⟩ := List.cons.injEq d (t ++ s₂) c s ▸ h
              subst h₁
              exact ⟨t, s₂, h₂, ha, hb⟩
      · simp only [deriv, if_neg hn, Lang, iha]
        constructor
        · rintro ⟨s₁, s₂, rfl, ha, hb⟩
          exact ⟨c :: s₁, s₂, rfl, ha, hb⟩
        · rintro ⟨s₁, s₂, h, ha, hb⟩
          cases s₁ with
          | nil =>
              exfalso
              simp only [List.nil_append] at h
              exact hn ((nullable_iff a).mpr ha)
          | cons d t =>
              rw [List.cons_append] at h
              obtain ⟨h₁, h₂⟩ := List.cons.injEq d (t ++ s₂) c s ▸ h
              subst h₁
              exact ⟨t, s₂, h₂, ha, hb⟩
  | allstr => simp [deriv, Lang]

theorem rmatch_iff (r : Rx) (s : List Char) : rmatch r s = true ↔ Lang r s := by
  induction s generalizing r with
  | nil => exact nullable_iff r
  | cons c t ih => rw [rmatch, ih, deriv_lang]

theorem lit_lang (l s : List Char) : Lang (lit l) s ↔ s = l := by
  induction l generalizing s with
  | nil => simp [lit, Lang]
  | cons c t ih =>
      constructor
      · rintro ⟨s₁, s₂, rfl, h₁, h₂⟩
        have h₁' : s₁ = [c] := h₁
        subst h₁'
        rw [(ih s₂).mp h₂]
        rfl
      · rintro rfl
        exact ⟨[c], t, rfl, rfl, (ih t).mpr rfl⟩

theorem altsRx_lang (ls : List (List Char)) (s : List Char) :
    Lang (altsRx ls) s ↔ s ∈ ls := by
  induction ls with
  | nil => simp [altsRx, Lang]
  | cons l t ih =>
      simp only [altsRx, List.foldr_cons, Lang, List.mem_cons] at *
      rw [lit_lang, ih]

theorem fileRx_lang (ls : List (List Char)) (s : List Char) :
    Lang (fileRx ls) s ↔ ∃ a ∈ ls, ('.' :: a) <:+ s := by
  constructor
  · rintro ⟨s₁, s₂, rfl, -, s₃, s₄, rfl, h₃, h₄⟩
    have h₃' : s₃ = ['.'] := h₃
    subst h₃'
    exact ⟨s₄, (altsRx_lang ls s₄).mp h₄, s₁, rfl⟩
  · rintro ⟨a, ha, pre, rfl⟩
    exact ⟨pre, '.' :: a, rfl, trivial, [ '.' ], a, rfl, rfl,
      (altsRx_lang ls a).mpr ha⟩

end Rx

theorem mapEncodingName_ne_empty (s : String) (h : s ≠ "") :
    mapEncodingName s ≠ "" := by
  unfold mapEncodingName
  rw [if_neg h]
  dsimp only
  split_ifs <;> simp_all

theorem mapEncodingName_eq_empty_iff (s : String) :
    mapEncodingName s = "" ↔ s = "" := by
  constructor
  · intro hm
    by_contra h
    exact mapEncodingName_ne_empty s h hm
  · intro h; subst h; rfl

theorem mapEncodingName_unrecognized (s : String) (h : s ≠ "")
    (hr : inRegistry s = false) : mapEncodingName s = s := by
  have hm : lowerStr s ∉ aliasKeys := by
    simpa [inRegistry] using hr
  simp only [aliasKeys, List.mem_cons, List.not_mem_nil, or_false, not_or] at hm
  obtain ⟨h1, h2, h3, h4, h5, h6, h7, h8, h9, h10, h11, h12, h13, h14⟩ := hm
  simp [mapEncodingName, h, h1, h2, h3, h4, h5, h6, h7, h8, h9, h10,
    h11, h12, h13, h14]

theorem fileMatch_iff (alts : List String) (name : String) :
    fileMatch alts name = true ↔
      ∃ a ∈ alts, ('.' :: (lowerStr a).data) <:+ (lowerStr name).data := by
  unfold fileMatch
  rw [Rx.rmatch_iff, Rx.fileRx_lang]
  constructor
  · rintro ⟨l, hl, hsuf⟩
    rw [List.mem_map] at hl
    obtain ⟨a, ha, rfl⟩ := hl
    exact ⟨a, ha, hsuf⟩
  · rintro ⟨a, ha, hsuf⟩
    exact ⟨(lowerStr a).data, List.mem_map_of_mem _ ha, hsuf⟩

theorem encMatch_iff (alts : List String) (candidate : String) :
    encMatch alts candidate = true ↔
      ∃ a ∈ alts, lowerStr candidate = lowerStr a := by
  unfold encMatch
  rw [Rx.rmatch_iff, Rx.altsRx_lang]
  constructor
  · intro hl
    rw [List.mem_map] at hl
    obtain ⟨a, ha, he⟩ := hl
    exact ⟨a, ha, congrArg String.mk he.symm⟩
  · rintro ⟨a, ha, he⟩
    rw [List.mem_map]
    exact ⟨a, ha, congrArg String.data he.symm⟩

theorem lowerStr_ne_empty {s k : String} (h : lowerStr s = k) (hk : k ≠ "") :
    s ≠ "" := by
  intro he
  subst he
  exact hk h.symm

/-- C6: the name normalizer performs a case-insensitive lookup over the
fixed alias table (utf8/utf-8→UTF-8, gbk→GBK, gb18030→GB18030,
big5→Big5, ascii→ASCII, windows-1252/windows1252→windows-1252,
iso-8859-1/iso8859-1→ISO-8859-1, utf-16le/utf16le→UTF-16LE,
utf-16be/utf16be→UTF-16BE), returns the empty string for empty input,
and returns any unrecognized input unchanged. -/
theorem c6_normalizer_table :
    (∀ s, lowerStr s = "utf8" ∨ lowerStr s = "utf-8" → mapEncodingName s = "UTF-8") ∧
    (∀ s, lowerStr s = "gbk" → mapEncodingName s = "GBK") ∧
    (∀ s, lowerStr s = "gb18030" → mapEncodingName s = "GB18030") ∧
    (∀ s, lowerStr s = "big5" → mapEncodingName s = "Big5") ∧
    (∀ s, lowerStr s = "ascii" → mapEncodingName s = "ASCII") ∧
    (∀ s, lowerStr s = "windows-1252" ∨ lowerStr s = "windows1252" →
      mapEncodingName s = "windows-1252") ∧
    (∀ s, lowerStr s = "iso-8859-1" ∨ lowerStr s = "iso8859-1" →
      mapEncodingName s = "ISO-8859-1") ∧
    (∀ s, lowerStr s = "utf-16le" ∨ lowerStr s = "utf16le" →
      mapEncodingName s = "UTF-16LE") ∧
    (∀ s, lowerStr s = "utf-16be" ∨ lowerStr s = "utf16be" →
      mapEncodingName s = "UTF-16BE") ∧
    mapEncodingName "" = "" ∧
    (∀ s, s ≠ "" → inRegistry s = false → mapEncodingName s = s) := by
  refine ⟨?_, ?_, ?_, ?_, ?_, ?_, ?_, ?_, ?_, rfl, mapEncodingName_unrecognized⟩ <;>
    intro s h <;>
    [rcases h with h | h; skip; skip; skip; skip;
     rcases h with h | h; rcases h with h | h; rcases h with h | h;
     rcases h with h | h] <;>
    (have hne : s ≠ "" := lowerStr_ne_empty h (by decide)
     unfold mapEncodingName
     simp only [if_neg hne]
     rw [h]
     simp only [String.reduceEq, or_true, true_or, or_false, false_or,
       reduceIte])

/-- A witness instantiating the quantified clauses of
`c6_normalizer_table` at concrete inputs. -/
theorem c6_normalizer_table_witness :
    (lowerStr "UTF8" = "utf8" ∨ lowerStr "UTF8" = "utf-8") ∧
    mapEncodingName "UTF8" = "UTF-8" ∧
    ("Klingon" ≠ "" ∧ inRegistry "Klingon" = false) ∧
    mapEncodingName "Klingon" = "Klingon" :=
  ⟨by decide, c6_normalizer_table.1 "UTF8" (by decide), by decide,
   c6_normalizer_table.2.2.2.2.2.2.2.2.2.2 "Klingon" (by decide) (by decide)⟩

/-- C7: normalization is idempotent on every supported encoding alias
(every input the registry resolves, case-insensitively). -/
theorem c7_normalize_idempotent (x : String) (hx : inRegistry x = true) :
    mapEncodingName (mapEncodingName x) = mapEncodingName x := by
  have hm : lowerStr x ∈ aliasKeys := by simpa [inRegistry] using hx
  have hne : x ≠ "" := by
    intro he
    rw [he] at hm
    exact absurd hm (by decide)
  simp only [aliasKeys, List.mem_cons, List.not_mem_nil, or_false] at hm
  have step : ∀ k : String, lowerStr x = k →
      (mapEncodingName x =
        if k = "windows-1252" ∨ k = "windows1252" then "windows-1252"
        else if k = "iso-8859-1" ∨ k = "iso8859-1" then "ISO-8859-1"
        else if k = "utf-8" ∨ k = "utf8" then "UTF-8"
        else if k = "gbk" then "GBK"
        else if k = "gb18030" then "GB18030"
        else if k = "ascii" then "ASCII"
        else if k = "big5" then "Big5"
        else if k = "utf-16le" ∨ k = "utf16le" then "UTF-16LE"
        else if k = "utf-16be" ∨ k = "utf16be" then "UTF-16BE"
        else x) := by
    intro k hk
    unfold mapEncodingName
    simp only [if_neg hne]
    rw [hk]
  rcases hm with h|h|h|h|h|h|h|h|h|h|h|h|h|h <;>
    (rw [step _ h]
     simp only [String.reduceEq, or_true, true_or, or_false, false_or,
       reduceIte]) <;>
    decide

/-- Witness for `c7_normalize_idempotent` at the alias `"utf8"`. -/
theorem c7_normalize_idempotent_witness :
    inRegistry "utf8" = true ∧
    mapEncodingName (mapEncodingName "utf8") = mapEncodingName "utf8" :=
  ⟨by decide, c7_normalize_idempotent "utf8" (by decide)⟩

/-- C5: the filename filter matches every filename when the pattern is
empty; with a non-empty (well-formed) pattern it performs an anchored,
case-insensitive match of "filename ends with `.` followed by one of
the pattern's alternatives"; in particular `"txt|md"` accepts
`"a.txt"` and `"B.MD"` and rejects `"a.txt.bak"` and `"a.csv"`. -/
theorem c5_filename_filter :
    (∀ name, shouldProcessFile name "" = .ok true) ∧
    (∀ name filter alts, filter ≠ "" → parseAlts filter = some alts →
      shouldProcessFile name filter =
        .ok (decide (∃ a ∈ alts,
          ('.' :: (lowerStr a).data) <:+ (lowerStr name).data))) ∧
    shouldProcessFile "a.txt" "txt|md" = .ok true ∧
    shouldProcessFile "B.MD" "txt|md" = .ok true ∧
    shouldProcessFile "a.txt.bak" "txt|md" = .ok false ∧
    shouldProcessFile "a.csv" "txt|md" = .ok false := by
  refine ⟨fun name => rfl, ?_, by decide, by decide, by decide, by decide⟩
  intro name filter alts hne hp
  unfold shouldProcessFile
  rw [if_neg hne, hp]
  show Except.ok (fileMatch alts name) = _
  congr 1
  rw [Bool.eq_iff_iff, decide_eq_true_eq]
  exact fileMatch_iff alts name

/-- Witness instantiating the quantified clauses of
`c5_filename_filter` at `"report.txt"` against `"txt|md"`. -/
theorem c5_filename_filter_witness :
    ("txt|md" ≠ "" ∧ parseAlts "txt|md" = some ["txt", "md"]) ∧
    shouldProcessFile "report.txt" "txt|md" =
      .ok (decide (∃ a ∈ ["txt", "md"],
        ('.' :: (lowerStr a).data) <:+ (lowerStr "report.txt").data)) :=
  ⟨⟨by decide, by decide⟩,
   c5_filename_filter.2.1 "report.txt" "txt|md" ["txt", "md"]
     (by decide) (by decide)⟩

/-- C9: the per-file pipeline opens the file for writing only after
transcoding has succeeded; on any skip and on a transcoding (or
earlier) failure the file's prior content is left unchanged; only a
successful conversion rewrites the file. -/
theorem c9_write_after_transcode (orc : Oracles) (w : Bool)
    (oc : Option String) (path toEncoding srcFilter : String) :
    ((convertFileStep orc w oc path toEncoding srcFilter).2.2 = true →
      ∃ fileContent mapped converted, oc = some fileContent ∧
        orc.ucnv toEncoding mapped fileContent = .ok converted) ∧
    ((∀ f t, (convertFileStep orc w oc path toEncoding srcFilter).2.1 ≠
        .ok (.converted f t)) →
      (convertFileStep orc w oc path toEncoding srcFilter).1 = oc) ∧
    ((convertFileStep orc w oc path toEncoding srcFilter).1 ≠ oc →
      ∃ f t converted,
        (convertFileStep orc w oc path toEncoding srcFilter).2.1 =
          .ok (.converted f t) ∧
        (convertFileStep orc w oc path toEncoding srcFilter).1 =
          some converted) := by
  cases oc with
  | none =>
    exact ⟨fun h => Bool.noConfusion h, fun _ => rfl, fun h => absurd rfl h⟩
  | some fileContent =>
    simp only [convertFileStep]
    cases hd : detectEncoding orc fileContent srcFilter with
    | error e =>
      exact ⟨fun h => Bool.noConfusion h, fun _ => rfl, fun h => absurd rfl h⟩
    | ok detected =>
      dsimp only
      by_cases h1 : detected = "UNKNOWN"
      · rw [if_pos h1]
        exact ⟨fun h => Bool.noConfusion h, fun _ => rfl, fun h => absurd rfl h⟩
      · rw [if_neg h1]
        by_cases h2 : detected = "MISMATCH"
        · rw [if_pos h2]
          exact ⟨fun h => Bool.noConfusion h, fun _ => rfl, fun h => absurd rfl h⟩
        · rw [if_neg h2]
          by_cases h3 : mapEncodingName detected = ""
          · rw [if_pos h3]
            exact ⟨fun h => Bool.noConfusion h, fun _ => rfl, fun h => absurd rfl h⟩
          · rw [if_neg h3]
            cases hc : orc.ucnv toEncoding (mapEncodingName detected) fileContent with
            | error e =>
              exact ⟨fun h => Bool.noConfusion h, fun _ => rfl, fun h => absurd rfl h⟩
            | ok converted =>
              cases w with
              | false =>
                exact ⟨fun _ => ⟨fileContent, mapEncodingName detected,
                  converted, rfl, hc⟩, fun _ => rfl, fun h => absurd rfl h⟩
              | true =>
                refine ⟨fun _ => ⟨fileContent, mapEncodingName detected,
                  converted, rfl, hc⟩, fun hno => ?_, fun _ => ?_⟩
                · exact absurd rfl (hno _ _)
                · exact ⟨mapEncodingName detected, toEncoding, converted,
                    rfl, rfl⟩

/-- Witness for `c9_write_after_transcode`: a successful conversion on
concrete input reached the write stage only with a successful
transcode; a file skipped as undetectable is left unchanged. -/
theorem c9_write_after_transcode_witness :
    (∃ fileContent mapped converted, some "hello" = some fileContent ∧
      demoOracles.ucnv "UTF-8" mapped fileContent = .ok converted) ∧
    (convertFileStep ⟨fun _ => .ok none, fun _ _ _ => .error "x"⟩ true
      (some "hello") "/d/a.txt" "UTF-8" "").1 = some "hello" :=
  ⟨(c9_write_after_transcode demoOracles true (some "hello") "/d/a.txt"
      "UTF-8" "").1 (by decide),
   (c9_write_after_transcode ⟨fun _ => .ok none, fun _ _ _ => .error "x"⟩
      true (some "hello") "/d/a.txt" "UTF-8" "").2.1
     (fun f t h => Status.noConfusion (Except.ok.inj h))⟩

theorem runJob_apply_ne (orc : Oracles) (wr : String → Bool) (te sf : String)
    (c : String → Option String) (p q : String) (h : q ≠ p) :
    (runJob orc wr te sf c p).1 q = c q := by
  simp [runJob, if_neg h]

theorem runJob_snd_congr (orc : Oracles) (wr : String → Bool) (te sf : String)
    {c c' : String → Option String} (p : String) (h : c p = c' p) :
    (runJob orc wr te sf c p).2 = (runJob orc wr te sf c' p).2 := by
  simp [runJob, h]

theorem runJob_fst_self_congr (orc : Oracles) (wr : String → Bool) (te sf : String)
    {c c' : String → Option String} (p : String) (h : c p = c' p) :
    (runJob orc wr te sf c p).1 p = (runJob orc wr te sf c' p).1 p := by
  simp [runJob, h]

/-- Jobs on distinct paths commute on the contents map. -/
theorem runJob_comm (orc : Oracles) (wr : String → Bool) (te sf : String)
    (c : String → Option String) {x y : String} (hxy : y ≠ x) :
    (runJob orc wr te sf (runJob orc wr te sf c y).1 x).1 =
      (runJob orc wr te sf (runJob orc wr te sf c x).1 y).1 := by
  funext q
  by_cases hqx : q = x
  · subst hqx
    have h1 : (runJob orc wr te sf c y).1 q = c q :=
      runJob_apply_ne orc wr te sf c y q (fun he => hxy he.symm)
    have h2 : (runJob orc wr te sf (runJob orc wr te sf c q).1 y).1 q =
        (runJob orc wr te sf c q).1 q :=
      runJob_apply_ne orc wr te sf _ y q (fun he => hxy he.symm)
    rw [h2, runJob_fst_self_congr orc wr te sf q h1]
  · by_cases hqy : q = y
    · subst hqy
      have h1 : (runJob orc wr te sf c x).1 q = c q :=
        runJob_apply_ne orc wr te sf c x q hqx
      have h2 : (runJob orc wr te sf (runJob orc wr te sf c q).1 x).1 q =
          (runJob orc wr te sf c q).1 q :=
        runJob_apply_ne orc wr te sf _ x q hqx
    
      rw [h2, runJob_fst_self_congr orc wr te sf q h1]
    · rw [runJob_apply_ne orc wr te sf _ x q hqx,
          runJob_apply_ne orc wr te sf c y q hqy,
          runJob_apply_ne orc wr te sf _ y q hqy,
          runJob_apply_ne orc wr te sf c x q hqx]

/-- Running the dispatched jobs in any order over distinct paths yields
the same final contents and, up to reordering, the same outcomes and the
same write trace. -/
theorem runJobs_perm (orc : Oracles) (wr : String → Bool) (te sf : String)
    {l l' : List String} (h : l.Perm l') :
    l.Nodup → ∀ c,
      (runJobs orc wr te sf c l).1 = (runJobs orc wr te sf c l').1 ∧
      (runJobs orc wr te sf c l).2.1.Perm (runJobs orc wr te sf c l').2.1 ∧
      (runJobs orc wr te sf c l).2.2.Perm (runJobs orc wr te sf c l').2.2 := by
  induction h with
  | nil => exact fun _ _ => ⟨rfl, .refl _, .refl _⟩
  | cons x h ih =>
    intro hn c
    obtain ⟨h1, h2, h3⟩ := ih (List.nodup_cons.mp hn).2 ((runJob orc wr te sf c x).1)
    simp only [runJobs]
    exact ⟨h1, h2.cons _, h3.append_left _⟩
  | swap x y t =>
    intro hn c
    have hxy : y ≠ x := by
      intro he
      exact (List.nodup_cons.mp hn).1 (he ▸ List.mem_cons_self x t)
    have hcc : (runJob orc wr te sf (runJob orc wr te sf c y).1 x).1 =
        (runJob orc wr te sf (runJob orc wr te sf c x).1 y).1 :=
      runJob_comm orc wr te sf c hxy
    have hsx : (runJob orc wr te sf (runJob orc wr te sf c y).1 x).2 =
        (runJob orc wr te sf c x).2 :=
      runJob_snd_congr orc wr te sf x
        (runJob_apply_ne orc wr te sf c y x (fun he => hxy he.symm))
    have hsy : (runJob orc wr te sf (runJob orc wr te sf c x).1 y).2 =
        (runJob orc wr te sf c y).2 :=
      runJob_snd_congr orc wr te sf y
        (runJob_apply_ne orc wr te sf c x y hxy)
    simp only [runJobs]
    rw [hcc, hsx, hsy]
    refine ⟨rfl, List.Perm.swap _ _ _, ?_⟩
    rw [← List.append_assoc, ← List.append_assoc]
    exact List.perm_append_comm.append_right _
  | trans h12 h23 ih12 ih23 =>
    intro hn c
    obtain ⟨a1, a2, a3⟩ := ih12 hn c
    obtain ⟨b1, b2, b3⟩ := ih23 (h12.nodup_iff.mp hn) c
    exact ⟨a1.trans b1, a2.trans b2, a3.trans b3⟩

/-- With distinct paths, each job's outcome is a function of the initial
content of its own file alone: no other job's behaviour can affect it. -/
theorem runJobs_outcomes_of_nodup (orc : Oracles) (wr : String → Bool)
    (te sf : String) :
    ∀ (ps : List String), ps.Nodup →
      ∀ (c c' : String → Option String), (∀ p ∈ ps, c p = c' p) →
      (runJobs orc wr te sf c ps).2.1 =
        ps.map (fun p => (p, (runJob orc wr te sf c' p).2.1)) := by
  intro ps
  induction ps with
  | nil => intro _ c c' _; rfl
  | cons p rest ih =>
    intro hn c c' hcc
    simp only [runJobs, List.map_cons]
    have hS : (runJob orc wr te sf c p).2 = (runJob orc wr te sf c' p).2 :=
      runJob_snd_congr orc wr te sf p (hcc p (List.mem_cons_self p rest))
    rw [hS]
    congr 1
    exact ih (List.nodup_cons.mp hn).2 ((runJob orc wr te sf c p).1) c'
      (fun q hq => by
        rw [runJob_apply_ne orc wr te sf c p q
          (fun he => (List.nodup_cons.mp hn).1 (he ▸ hq))]
        exact hcc q (List.mem_cons_of_mem p hq))

theorem shouldProcessFile_error_shape {n f : String} {er : RunError}
    (h : shouldProcessFile n f = .error er) :
    er = .invalidFilter f ∧ f ≠ "" ∧ parseAlts f = none := by
  unfold shouldProcessFile at h
  by_cases hf : f = ""
  · rw [if_pos hf] at h
    exact Except.noConfusion h
  · rw [if_neg hf] at h
    cases hp : parseAlts f with
    | none =>
      rw [hp] at h
      exact ⟨(Except.error.inj h).symm, hf, rfl⟩
    | some alts =>
      rw [hp] at h
      exact Except.noConfusion h

theorem shouldProcessFile_error_indep {n f : String} {er : RunError}
    (h : shouldProcessFile n f = .error er) (n' : String) :
    shouldProcessFile n' f = .error er := by
  obtain ⟨he, hf, hp⟩ := shouldProcessFile_error_shape h
  unfold shouldProcessFile
  rw [if_neg hf, hp, he]

theorem planEntries_error_shape {ff : String} {entries : List Entry}
    {er : RunError} (h : planEntries ff entries = .error er) :
    er = .invalidFilter ff ∧ ∀ n, shouldProcessFile n ff = .error er := by
  induction entries with
  | nil => exact Except.noConfusion h
  | cons e rest ih =>
    unfold planEntries at h
    cases hb : e.isRegular with
    | false =>
      rw [hb] at h
      simp only [Bool.false_eq_true, if_false] at h
      exact ih h
    | true =>
      rw [hb] at h
      simp only [if_true] at h
      cases hsp : shouldProcessFile e.fileName ff with
      | error er2 =>
        rw [hsp] at h
        obtain rfl : er2 = er := Except.error.inj h
        obtain ⟨he, hf, hp⟩ := shouldProcessFile_error_shape hsp
        exact ⟨he, fun n => shouldProcessFile_error_indep hsp n⟩
      | ok b =>
        rw [hsp] at h
        cases b with
        | true =>
          cases hp : planEntries ff rest with
          | error er2 =>
            rw [hp] at h
            obtain rfl : er2 = er := Except.error.inj h
            exact ih hp
          | ok pr =>
            rw [hp] at h
            exact Except.noConfusion h
        | false =>
          cases hp : planEntries ff rest with
          | error er2 =>
            rw [hp] at h
            obtain rfl : er2 = er := Except.error.inj h
            exact ih hp
          | ok pr =>
            rw [hp] at h
            exact Except.noConfusion h

/-- When the enumeration plan succeeds, the sequential loop produces the
same final contents, reads, writes and (up to interleaving) outcomes as
planning and then running the jobs in order, and no error escapes. -/
theorem runEntriesSingle_plan_ok (orc : Oracles) (wr : String → Bool)
    (te sf ff : String) :
    ∀ (entries : List Entry) (sk : List (String × Status)) (js : List String),
      planEntries ff entries = .ok (sk, js) →
      ∀ c,
      (runEntriesSingle orc wr te sf ff c entries).1 =
        (runJobs orc wr te sf c js).1 ∧
      (runEntriesSingle orc wr te sf ff c entries).2.1.Perm
        (sk ++ (runJobs orc wr te sf c js).2.1) ∧
      (runEntriesSingle orc wr te sf ff c entries).2.2.1 = js ∧
      (runEntriesSingle orc wr te sf ff c entries).2.2.2.1 =
        (runJobs orc wr te sf c js).2.2 ∧
      (runEntriesSingle orc wr te sf ff c entries).2.2.2.2 = none := by
  intro entries
  induction entries with
  | nil =>
    intro sk js h c
    obtain ⟨rfl, rfl⟩ := Prod.mk.injEq .. ▸ Except.ok.inj h
    exact ⟨rfl, .refl _, rfl, rfl, rfl⟩
  | cons e rest ih =>
    intro sk js h c
    unfold planEntries at h
    unfold runEntriesSingle
    cases hb : e.isRegular with
    | false =>
      rw [hb] at h
      simp only [Bool.false_eq_true, if_false] at h ⊢
      exact ih sk js h c
    | true =>
      rw [hb] at h
      simp only [if_true] at h ⊢
      cases hsp : shouldProcessFile e.fileName ff with
      | error er2 =>
        rw [hsp] at h
        exact Except.noConfusion h
      | ok b =>
        rw [hsp] at h
        cases b with
        | true =>
          cases hp : planEntries ff rest with
          | error er2 =>
            rw [hp] at h
            exact Except.noConfusion h
          | ok pr =>
            rw [hp] at h
            obtain ⟨rfl, rfl⟩ := Prod.mk.injEq .. ▸ Except.ok.inj h
            obtain ⟨i1, i2, i3, i4, i5⟩ :=
              ih pr.1 pr.2 (by rw [hp]) ((runJob orc wr te sf c e.path).1)
            simp only [runJobs]
            refine ⟨i1, ?_, by rw [i3], by rw [i4], i5⟩
            exact (i2.cons _).trans List.perm_middle.symm
        | false =>
          cases hp : planEntries ff rest with
          | error er2 =>
            rw [hp] at h
            exact Except.noConfusion h
          | ok pr =>
            rw [hp] at h
            obtain ⟨rfl, rfl⟩ := Prod.mk.injEq .. ▸ Except.ok.inj h
            obtain ⟨i1, i2, i3, i4, i5⟩ := ih pr.1 pr.2 (by rw [hp]) c
            exact ⟨i1, i2.cons _, i3, i4, i5⟩

/-- When the plan fails (malformed filename filter), the sequential loop
stops at the first regular entry with the same error, before any file
is touched. -/
theorem runEntriesSingle_plan_error (orc : Oracles) (wr : String → Bool)
    (te sf ff : String) :
    ∀ (entries : List Entry) (er : RunError),
      planEntries ff entries = .error er →
      ∀ c, runEntriesSingle orc wr te sf ff c entries = (c, [], [], [], some er) := by
  intro entries
  induction entries with
  | nil => exact fun er h => Except.noConfusion h
  | cons e rest ih =>
    intro er h c
    unfold planEntries at h
    unfold runEntriesSingle
    cases hb : e.isRegular with
    | false =>
      rw [hb] at h
      simp only [Bool.false_eq_true, if_false] at h ⊢
      exact ih er h c
    | true =>
      rw [hb] at h
      simp only [if_true] at h ⊢
      cases hsp : shouldProcessFile e.fileName ff with
      | error er2 =>
        rw [hsp] at h
        obtain rfl : er2 = er := Except.error.inj h
        rfl
      | ok b =>
        rw [hsp] at h
        exfalso
        have hrest : planEntries ff rest = .error er := by
          cases b with
          | true =>
            cases hp : planEntries ff rest with
            | error er2 =>
              rw [hp] at h
              rw [Except.error.inj h]
            | ok pr => rw [hp] at h; exact Except.noConfusion h
          | false =>
            cases hp : planEntries ff rest with
            | error er2 =>
              rw [hp] at h
              rw [Except.error.inj h]
            | ok pr => rw [hp] at h; exact Except.noConfusion h
        obtain ⟨-, hall⟩ := planEntries_error_shape hrest
        rw [hall e.fileName] at hsp
        exact Except.noConfusion hsp

theorem planEntries_jobs_sublist {ff : String} :
    ∀ {entries : List Entry} {sk : List (String × Status)} {js : List String},
      planEntries ff entries = .ok (sk, js) →
      js.Sublist (entries.map Entry.path) := by
  intro entries
  induction entries with
  | nil =>
    intro sk js h
    obtain ⟨rfl, rfl⟩ := Prod.mk.injEq .. ▸ Except.ok.inj h
    exact List.Sublist.refl _
  | cons e rest ih =>
    intro sk js h
    unfold planEntries at h
    cases hb : e.isRegular with
    | false =>
      rw [hb] at h
      simp only [Bool.false_eq_true, if_false] at h
      exact (ih h).trans (List.sublist_cons_self _ _)
    | true =>
      rw [hb] at h
      simp only [if_true] at h
      cases hsp : shouldProcessFile e.fileName ff with
      | error er2 => rw [hsp] at h; exact Except.noConfusion h
      | ok b =>
        rw [hsp] at h
        cases b with
        | true =>
          cases hp : planEntries ff rest with
          | error er2 => rw [hp] at h; exact Except.noConfusion h
          | ok pr =>
            rw [hp] at h
            obtain ⟨rfl, rfl⟩ := Prod.mk.injEq .. ▸ Except.ok.inj h
            exact (ih (by rw [hp])).cons₂ e.path
        | false =>
          cases hp : planEntries ff rest with
          | error er2 => rw [hp] at h; exact Except.noConfusion h
          | ok pr =>
            rw [hp] at h
            obtain ⟨rfl, rfl⟩ := Prod.mk.injEq .. ▸ Except.ok.inj h
            exact (ih (by rw [hp])).trans (List.sublist_cons_self _ _)

theorem planEntries_jobs_mem {ff : String} :
    ∀ {entries : List Entry} {sk : List (String × Status)} {js : List String}
      {p : String},
      planEntries ff entries = .ok (sk, js) → p ∈ js →
      ∃ e, e ∈ entries ∧ e.path = p ∧ e.isRegular = true ∧
        shouldProcessFile e.fileName ff = .ok true := by
  intro entries
  induction entries with
  | nil =>
    intro sk js p h hp
    obtain ⟨rfl, rfl⟩ := Prod.mk.injEq .. ▸ Except.ok.inj h
    exact absurd hp (List.not_mem_nil p)
  | cons e rest ih =>
    intro sk js p h hp
    unfold planEntries at h
    cases hb : e.isRegular with
    | false =>
      rw [hb] at h
      simp only [Bool.false_eq_true, if_false] at h
      obtain ⟨e', h1, h2, h3, h4⟩ := ih h hp
      exact ⟨e', List.mem_cons_of_mem e h1, h2, h3, h4⟩
    | true =>
      rw [hb] at h
      simp only [if_true] at h
      cases hsp : shouldProcessFile e.fileName ff with
      | error er2 => rw [hsp] at h; exact Except.noConfusion h
      | ok b =>
        rw [hsp] at h
        cases b with
        | true =>
          cases hq : planEntries ff rest with
          | error er2 => rw [hq] at h; exact Except.noConfusion h
          | ok pr =>
            rw [hq] at h
            obtain ⟨rfl, rfl⟩ := Prod.mk.injEq .. ▸ Except.ok.inj h
            rcases List.mem_cons.mp hp with rfl | hp'
            · exact ⟨e, List.mem_cons_self e rest, rfl, hb, hsp⟩
            · obtain ⟨e', h1, h2, h3, h4⟩ := ih (by rw [hq]) hp'
              exact ⟨e', List.mem_cons_of_mem e h1, h2, h3, h4⟩
        | false =>
          cases hq : planEntries ff rest with
          | error er2 => rw [hq] at h; exact Except.noConfusion h
          | ok pr =>
            rw [hq] at h
            obtain ⟨rfl, rfl⟩ := Prod.mk.injEq .. ▸ Except.ok.inj h
            obtain ⟨e', h1, h2, h3, h4⟩ := ih (by rw [hq]) hp
            exact ⟨e', List.mem_cons_of_mem e h1, h2, h3, h4⟩

theorem planEntries_skip_mem {ff : String} :
    ∀ {entries : List Entry} {sk : List (String × Status)} {js : List String}
      {e : Entry},
      planEntries ff entries = .ok (sk, js) → e ∈ entries →
      e.isRegular = true → shouldProcessFile e.fileName ff = .ok false →
      (e.path, Status.skippedFilenameMismatch) ∈ sk := by
  intro entries
  induction entries with
  | nil =>
    intro sk js e h he
    exact absurd he (List.not_mem_nil e)
  | cons e0 rest ih =>
    intro sk js e h he hreg hfail
    unfold planEntries at h
    cases hb : e0.isRegular with
    | false =>
      rw [hb] at h
      simp only [Bool.false_eq_true, if_false] at h
      rcases List.mem_cons.mp he with rfl | he'
      · rw [hreg] at hb; exact Bool.noConfusion hb
      · exact ih h he' hreg hfail
    | true =>
      rw [hb] at h
      simp only [if_true] at h
      cases hsp : shouldProcessFile e0.fileName ff with
      | error er2 => rw [hsp] at h; exact Except.noConfusion h
      | ok b =>
        rw [hsp] at h
        cases b with
        | true =>
          cases hq : planEntries ff rest with
          | error er2 => rw [hq] at h; exact Except.noConfusion h
          | ok pr =>
            rw [hq] at h
            obtain ⟨rfl, rfl⟩ := Prod.mk.injEq .. ▸ Except.ok.inj h
            rcases List.mem_cons.mp he with rfl | he'
            · rw [hfail] at hsp
              exact Bool.noConfusion (Except.ok.inj hsp)
            · exact ih (by rw [hq]) he' hreg hfail
        | false =>
          cases hq : planEntries ff rest with
          | error er2 => rw [hq] at h; exact Except.noConfusion h
          | ok pr =>
            rw [hq] at h
            obtain ⟨rfl, rfl⟩ := Prod.mk.injEq .. ▸ Except.ok.inj h
            rcases List.mem_cons.mp he with rfl | he'
            · exact List.mem_cons_self _ _
            · exact List.mem_cons_of_mem _ (ih (by rw [hq]) he' hreg hfail)

/-- C2: for every root path, target encoding, source-encoding filter and
filename filter, the concurrent scheduler (`convert`, under any order
`sched` in which the runtime happens to execute the dispatched tasks)
and the strictly sequential scheduler (`convert_single`) fail with the
same request-fatal error, produce the same multiset of per-file
outcomes, read and write the same sets of files, and leave identical
file contents — differing only in ordering.  (`hn`: the directory
enumeration yields distinct paths, as a real filesystem walk does.) -/
theorem c2_schedulers_equivalent (orc : Oracles) (fs : FS) (req : Request)
    (sched : List String → List String)
    (hsched : ∀ l, (sched l).Perm l)
    (hn : (fs.entries.map Entry.path).Nodup) :
    (convert orc fs req sched).err = (convert_single orc fs req).err ∧
    (convert orc fs req sched).outcomes.Perm
      (convert_single orc fs req).outcomes ∧
    (convert orc fs req sched).reads.Perm (convert_single orc fs req).reads ∧
    (convert orc fs req sched).writes.Perm
      (convert_single orc fs req).writes ∧
    (convert orc fs req sched).contents = (convert_single orc fs req).contents := by
  obtain ⟨kind, rfn, entries, contents, writable⟩ := fs
  by_cases ht : mapEncodingName req.toEncoding = ""
  · unfold convert convert_single
    simp only [if_pos ht]
    exact ⟨trivial, .refl _, .refl _, .refl _, trivial⟩
  · unfold convert convert_single
    simp only [if_neg ht]
    cases kind with
    | dir =>
      dsimp only
      cases hp : planEntries req.fileFilter entries with
      | error er =>
        have hs := runEntriesSingle_plan_error orc writable
          (mapEncodingName req.toEncoding) req.sourceEncodingFilter
          req.fileFilter entries er hp contents
        rw [hs]
        exact ⟨rfl, .refl _, .refl _, .refl _, rfl⟩
      | ok pr =>
        have hsub : pr.2.Sublist (entries.map Entry.path) :=
          planEntries_jobs_sublist (by rw [hp])
        have hjsnd : pr.2.Nodup := hn.sublist hsub
        have hperm := hsched pr.2
        have hnsched : (sched pr.2).Nodup := hperm.nodup_iff.mpr hjsnd
        obtain ⟨j1, j2, j3⟩ := runJobs_perm orc writable
          (mapEncodingName req.toEncoding) req.sourceEncodingFilter
          hperm hnsched contents
        obtain ⟨s1, s2, s3, s4, s5⟩ := runEntriesSingle_plan_ok orc writable
          (mapEncodingName req.toEncoding) req.sourceEncodingFilter
          req.fileFilter entries pr.1 pr.2 (by rw [hp]) contents
        dsimp only
        refine ⟨s5.symm, ?_, ?_, ?_, ?_⟩
        · exact (j2.append_left pr.1).trans s2.symm
        · rw [s3]; exact hperm
        · rw [s4]; exact j3
        · rw [s1]; exact j1
    | file =>
      dsimp only
      cases hsp : shouldProcessFile rfn req.fileFilter with
      | error er =>
        exact ⟨rfl, .refl _, .refl _, .refl _, rfl⟩
      | ok b =>
        cases b with
        | true => exact ⟨rfl, .refl _, .refl _, .refl _, rfl⟩
        | false => exact ⟨rfl, .refl _, .refl _, .refl _, rfl⟩
    | other => exact ⟨rfl, .refl _, .refl _, .refl _, rfl⟩

/-- Witness for `c2_schedulers_equivalent`: the identity schedule over
the demo tree (whose outcome lists differ between the two schedulers in
order, yet agree as multisets). -/
theorem c2_schedulers_equivalent_witness :
    ((∀ l : List String, (id l).Perm l) ∧
      (demoFS.entries.map Entry.path).Nodup) ∧
    ((convert demoOracles demoFS ⟨"/d", "utf8", "", "txt|md"⟩ id).err =
      (convert_single demoOracles demoFS ⟨"/d", "utf8", "", "txt|md"⟩).err ∧
     (convert demoOracles demoFS ⟨"/d", "utf8", "", "txt|md"⟩ id).outcomes.Perm
      (convert_single demoOracles demoFS ⟨"/d", "utf8", "", "txt|md"⟩).outcomes ∧
     (convert demoOracles demoFS ⟨"/d", "utf8", "", "txt|md"⟩ id).reads.Perm
      (convert_single demoOracles demoFS ⟨"/d", "utf8", "", "txt|md"⟩).reads ∧
     (convert demoOracles demoFS ⟨"/d", "utf8", "", "txt|md"⟩ id).writes.Perm
      (convert_single demoOracles demoFS ⟨"/d", "utf8", "", "txt|md"⟩).writes ∧
     (convert demoOracles demoFS ⟨"/d", "utf8", "", "txt|md"⟩ id).contents =
      (convert_single demoOracles demoFS ⟨"/d", "utf8", "", "txt|md"⟩).contents) :=
  ⟨⟨fun l => List.Perm.refl l, by decide⟩,
   c2_schedulers_equivalent demoOracles demoFS ⟨"/d", "utf8", "", "txt|md"⟩ id
     (fun l => List.Perm.refl l) (by decide)⟩

/-- In a directory run with a valid target and a well-formed filename
filter, `convert` never fails, reads exactly the dispatched jobs, and
produces the planned skip outcomes followed by one outcome per
dispatched job, each computed from the initial content of its own file
alone. -/
theorem convert_dir_spec (orc : Oracles) (fs : FS) (req : Request)
    (sched : List String → List String) (sk : List (String × Status))
    (js : List String)
    (hsched : ∀ l, (sched l).Perm l)
    (ht : mapEncodingName req.toEncoding ≠ "")
    (hk : fs.kind = .dir)
    (hp : planEntries req.fileFilter fs.entries = .ok (sk, js))
    (hn : (fs.entries.map Entry.path).Nodup) :
    (convert orc fs req sched).err = none ∧
    (convert orc fs req sched).reads = sched js ∧
    (convert orc fs req sched).outcomes =
      sk ++ (sched js).map (fun p =>
        (p, (runJob orc fs.writable (mapEncodingName req.toEncoding)
          req.sourceEncodingFilter fs.contents p).2.1)) := by
  unfold convert
  simp only [if_neg ht, hk, hp]
  refine ⟨trivial, trivial, ?_⟩
  show sk ++ _ = sk ++ _
  congr 1
  have hjsnd : js.Nodup := hn.sublist (planEntries_jobs_sublist hp)
  have hnsched : (sched js).Nodup := (hsched js).nodup_iff.mpr hjsnd
  exact runJobs_outcomes_of_nodup orc fs.writable
    (mapEncodingName req.toEncoding) req.sourceEncodingFilter (sched js)
    hnsched fs.contents fs.contents (fun _ _ => rfl)


/-- C3: in a directory run (valid target, well-formed filename filter),
every file-scoped condition raised inside one file's pipeline —
whatever the oracles do: read error, detector failure, transcode error,
write error — is caught at that file's job boundary and becomes that
file's own outcome; the run never fails, every dispatched task yields
exactly one outcome, and each job's outcome is a function of the
initial content of its own file alone, unaffected by any other file's
task. -/
theorem c3_fault_isolation (orc : Oracles) (fs : FS) (req : Request)
    (sched : List String → List String) (sk : List (String × Status))
    (js : List String)
    (hsched : ∀ l, (sched l).Perm l)
    (ht : mapEncodingName req.toEncoding ≠ "")
    (hk : fs.kind = .dir)
    (hp : planEntries req.fileFilter fs.entries = .ok (sk, js))
    (hn : (fs.entries.map Entry.path).Nodup) :
    (convert orc fs req sched).err = none ∧
    (convert orc fs req sched).outcomes =
      sk ++ (sched js).map (fun p =>
        (p, (runJob orc fs.writable (mapEncodingName req.toEncoding)
          req.sourceEncodingFilter fs.contents p).2.1)) :=
  ⟨(convert_dir_spec orc fs req sched sk js hsched ht hk hp hn).1,
   (convert_dir_spec orc fs req sched sk js hsched ht hk hp hn).2.2⟩

/-- Witness for `c3_fault_isolation`: under an oracle that fails every
transcode, the demo run still completes with one `failed` outcome per
dispatched file. -/
theorem c3_fault_isolation_witness :
    ((∀ l : List String, (id l).Perm l) ∧
      mapEncodingName "utf8" ≠ "" ∧ demoFS.kind = .dir ∧
      planEntries "txt|md" demoFS.entries =
        .ok ([("/d/c.csv", .skippedFilenameMismatch)],
             ["/d/a.txt", "/d/b.md"]) ∧
      (demoFS.entries.map Entry.path).Nodup) ∧
    ((convert failOracles demoFS ⟨"/d", "utf8", "", "txt|md"⟩ id).err = none ∧
     (convert failOracles demoFS ⟨"/d", "utf8", "", "txt|md"⟩ id).outcomes =
       [("/d/c.csv", .skippedFilenameMismatch)] ++
       (id ["/d/a.txt", "/d/b.md"]).map (fun p =>
         (p, (runJob failOracles demoFS.writable (mapEncodingName "utf8")
           "" demoFS.contents p).2.1))) :=
  ⟨⟨fun l => List.Perm.refl l, by decide, by decide, by decide, by decide⟩,
   c3_fault_isolation failOracles demoFS ⟨"/d", "utf8", "", "txt|md"⟩ id
     [("/d/c.csv", .skippedFilenameMismatch)] ["/d/a.txt", "/d/b.md"]
     (fun l => List.Perm.refl l) (by decide) (by decide) (by decide)
     (by decide)⟩

/-- C8: in a directory run (valid target, well-formed filename filter),
every regular file whose filename fails the filename filter gets a
filename-mismatch skip outcome, and its bytes are never read (no job
opens it). -/
theorem c8_filename_mismatch_not_read (orc : Oracles) (fs : FS)
    (req : Request) (sched : List String → List String)
    (sk : List (String × Status)) (js : List String) (e : Entry)
    (hsched : ∀ l, (sched l).Perm l)
    (ht : mapEncodingName req.toEncoding ≠ "")
    (hk : fs.kind = .dir)
    (hp : planEntries req.fileFilter fs.entries = .ok (sk, js))
    (hn : (fs.entries.map Entry.path).Nodup)
    (he : e ∈ fs.entries) (hreg : e.isRegular = true)
    (hfail : shouldProcessFile e.fileName req.fileFilter = .ok false) :
    (e.path, Status.skippedFilenameMismatch) ∈
      (convert orc fs req sched).outcomes ∧
    e.path ∉ (convert orc fs req sched).reads := by
  unfold convert
  simp only [if_neg ht, hk, hp]
  constructor
  · exact List.mem_append_left _ (planEntries_skip_mem hp he hreg hfail)
  · intro hmem
    have hjs : e.path ∈ js := ((hsched js).mem_iff).mp hmem
    obtain ⟨e', h1, h2, h3, h4⟩ := planEntries_jobs_mem hp hjs
    have hee : e' = e := List.inj_on_of_nodup_map hn h1 he h2
    rw [hee, hfail] at h4
    exact Bool.noConfusion (Except.ok.inj h4)

/-- Witness for `c8_filename_mismatch_not_read`: in the demo run with
filter `"txt|md"`, `c.csv` is skipped with a filename mismatch and
never opened. -/
theorem c8_filename_mismatch_not_read_witness :
    ((∀ l : List String, (id l).Perm l) ∧
      mapEncodingName "utf8" ≠ "" ∧ demoFS.kind = .dir ∧
      planEntries "txt|md" demoFS.entries =
        .ok ([("/d/c.csv", .skippedFilenameMismatch)],
             ["/d/a.txt", "/d/b.md"]) ∧
      (demoFS.entries.map Entry.path).Nodup ∧
      (⟨"/d/c.csv", "c.csv", true⟩ : Entry) ∈ demoFS.entries ∧
      shouldProcessFile "c.csv" "txt|md" = .ok false) ∧
    (("/d/c.csv", Status.skippedFilenameMismatch) ∈
      (convert demoOracles demoFS ⟨"/d", "utf8", "", "txt|md"⟩ id).outcomes ∧
     "/d/c.csv" ∉
      (convert demoOracles demoFS ⟨"/d", "utf8", "", "txt|md"⟩ id).reads) :=
  ⟨⟨fun l => List.Perm.refl l, by decide, by decide, by decide, by decide,
    by decide, by decide⟩,
   c8_filename_mismatch_not_read demoOracles demoFS
     ⟨"/d", "utf8", "", "txt|md"⟩ id
     [("/d/c.csv", .skippedFilenameMismatch)] ["/d/a.txt", "/d/b.md"]
     ⟨"/d/c.csv", "c.csv", true⟩ (fun l => List.Perm.refl l) (by decide)
     (by decide) (by decide) (by decide) (by decide) (by decide) (by decide)⟩

theorem convert_err_not_unsupported (orc : Oracles) (fs : FS) (req : Request)
    (sched : List String → List String)
    (ht : mapEncodingName req.toEncoding ≠ "") (e : String) :
    (convert orc fs req sched).err ≠ some (.unsupportedTarget e) := by
  obtain ⟨kind, rfn, entries, contents, writable⟩ := fs
  unfold convert
  simp only [if_neg ht]
  cases kind with
  | dir =>
    dsimp only
    cases hp : planEntries req.fileFilter entries with
    | error er =>
      obtain ⟨he, -⟩ := planEntries_error_shape hp
      intro hcon
      rw [he] at hcon
      exact RunError.noConfusion (Option.some.inj hcon)
    | ok pr =>
      intro hcon
      exact Option.noConfusion hcon
  | file =>
    dsimp only
    cases hsp : shouldProcessFile rfn req.fileFilter with
    | error er =>
      obtain ⟨he, -, -⟩ := shouldProcessFile_error_shape hsp
      intro hcon
      rw [he] at hcon
      exact RunError.noConfusion (Option.some.inj hcon)
    | ok b =>
      cases b with
      | true => exact fun hcon => Option.noConfusion hcon
      | false => exact fun hcon => Option.noConfusion hcon
  | other =>
    intro hcon
    exact RunError.noConfusion (Option.some.inj hcon)

theorem convert_single_err_not_unsupported (orc : Oracles) (fs : FS)
    (req : Request) (ht : mapEncodingName req.toEncoding ≠ "") (e : String) :
    (convert_single orc fs req).err ≠ some (.unsupportedTarget e) := by
  obtain ⟨kind, rfn, entries, contents, writable⟩ := fs
  unfold convert_single
  simp only [if_neg ht]
  cases kind with
  | dir =>
    dsimp only
    cases hp : planEntries req.fileFilter entries with
    | error er =>
      obtain ⟨he, -⟩ := planEntries_error_shape hp
      have hs := runEntriesSingle_plan_error orc writable
        (mapEncodingName req.toEncoding) req.sourceEncodingFilter
        req.fileFilter entries er hp contents
      rw [hs]
      intro hcon
      rw [he] at hcon
      exact RunError.noConfusion (Option.some.inj hcon)
    | ok pr =>
      obtain ⟨-, -, -, -, s5⟩ := runEntriesSingle_plan_ok orc writable
        (mapEncodingName req.toEncoding) req.sourceEncodingFilter
        req.fileFilter entries pr.1 pr.2 (by rw [hp]) contents
      show (runEntriesSingle _ _ _ _ _ _ _).2.2.2.2 ≠ _
      rw [s5]
      exact fun hcon => Option.noConfusion hcon
  | file =>
    dsimp only
    cases hsp : shouldProcessFile rfn req.fileFilter with
    | error er =>
      obtain ⟨he, -, -⟩ := shouldProcessFile_error_shape hsp
      intro hcon
      rw [he] at hcon
      exact RunError.noConfusion (Option.some.inj hcon)
    | ok b =>
      cases b with
      | true => exact fun hcon => Option.noConfusion hcon
      | false => exact fun hcon => Option.noConfusion hcon
  | other =>
    intro hcon
    exact RunError.noConfusion (Option.some.inj hcon)

/-- C10: `mapEncodingName` returns the empty string if and only if its
input is the empty string — every non-empty input, recognized or not,
yields a non-empty string — so the up-front unsupported-target abort of
`convert` and `convert_single` fires exactly when the requested target
encoding is the empty string. -/
theorem c10_abort_iff_empty_target :
    (∀ s, mapEncodingName s = "" ↔ s = "") ∧
    (∀ orc fs req sched,
      (convert orc fs req sched).err =
        some (.unsupportedTarget req.toEncoding) ↔ req.toEncoding = "") ∧
    (∀ orc fs req,
      (convert_single orc fs req).err =
        some (.unsupportedTarget req.toEncoding) ↔ req.toEncoding = "") := by
  refine ⟨mapEncodingName_eq_empty_iff, ?_, ?_⟩
  · intro orc fs req sched
    constructor
    · intro h
      by_contra hne
      exact convert_err_not_unsupported orc fs req sched
        (mapEncodingName_ne_empty _ hne) _ h
    · intro h
      have ht : mapEncodingName req.toEncoding = "" := by rw [h]; rfl
      unfold convert
      simp only [if_pos ht]
  · intro orc fs req
    constructor
    · intro h
      by_contra hne
      exact convert_single_err_not_unsupported orc fs req
        (mapEncodingName_ne_empty _ hne) _ h
    · intro h
      have ht : mapEncodingName req.toEncoding = "" := by rw [h]; rfl
      unfold convert_single
      simp only [if_pos ht]

/-- Witness for `c10_abort_iff_empty_target`: with an empty target the
abort fires; with the unrecognized target `"klingon"` it does not. -/
theorem c10_abort_iff_empty_target_witness :
    (convert demoOracles demoFS ⟨"/d", "", "", ""⟩ id).err =
      some (.unsupportedTarget "") ∧
    ¬ (convert demoOracles demoFS ⟨"/d", "klingon", "", ""⟩ id).err =
      some (.unsupportedTarget "klingon") :=
  ⟨(c10_abort_iff_empty_target.2.1 demoOracles demoFS ⟨"/d", "", "", ""⟩
      id).mpr rfl,
   fun h => by
     have := (c10_abort_iff_empty_target.2.1 demoOracles demoFS
       ⟨"/d", "klingon", "", ""⟩ id).mp h
     exact absurd this (by decide)⟩

/-- C1 counterexample: the target `"klingon"` is not resolvable by the
normalizer's registry, yet `convert` does not abort: the run completes
with no request-fatal error, every file in the tree is opened for
reading, and per-file outcomes are produced; `convert_single` behaves
the same.  (The claim demanded an up-front unsupported-target abort
with zero outcomes and no file opened.) -/
theorem c1_unsupported_target_counterexample :
    inRegistry "klingon" = false ∧
    (convert demoOracles demoFS ⟨"/d", "klingon", "", ""⟩ id).err = none ∧
    (convert demoOracles demoFS ⟨"/d", "klingon", "", ""⟩ id).reads =
      ["/d/a.txt", "/d/b.md", "/d/c.csv"] ∧
    (convert demoOracles demoFS ⟨"/d", "klingon", "", ""⟩ id).outcomes ≠ [] ∧
    (convert_single demoOracles demoFS ⟨"/d", "klingon", "", ""⟩).err =
      none := by
  decide

/-- C1 (amended): the up-front abort of `convert` and `convert_single`
fires exactly for the empty target encoding — the only input the
normalizer maps to the empty string.  For an empty target both
schedulers abort with the unsupported-target error before any file is
touched: zero outcomes, no file opened for reading or writing, contents
untouched.  A non-empty target, whether in the registry or not, passes
the up-front check (see the counterexample), and unrecognized names are
merely flagged. -/
theorem c1_amended_empty_target_aborts (orc : Oracles) (fs : FS)
    (req : Request) (sched : List String → List String)
    (h : req.toEncoding = "") :
    convert orc fs req sched =
      ⟨some (.unsupportedTarget req.toEncoding), [], [], [], fs.contents⟩ ∧
    convert_single orc fs req =
      ⟨some (.unsupportedTarget req.toEncoding), [], [], [], fs.contents⟩ := by
  have ht : mapEncodingName req.toEncoding = "" := by rw [h]; rfl
  unfold convert convert_single
  simp only [if_pos ht]
  exact ⟨trivial, trivial⟩

/-- Witness for `c1_amended_empty_target_aborts` at an empty target over
the demo tree. -/
theorem c1_amended_empty_target_aborts_witness :
    (("" : String) = "") ∧
    convert demoOracles demoFS ⟨"/d", "", "", ""⟩ id =
      ⟨some (.unsupportedTarget ""), [], [], [], demoFS.contents⟩ ∧
    convert_single demoOracles demoFS ⟨"/d", "", "", ""⟩ =
      ⟨some (.unsupportedTarget ""), [], [], [], demoFS.contents⟩ :=
  ⟨rfl,
   (c1_amended_empty_target_aborts demoOracles demoFS ⟨"/d", "", "", ""⟩
     id rfl).1,
   (c1_amended_empty_target_aborts demoOracles demoFS ⟨"/d", "", "", ""⟩
     id rfl).2⟩

theorem planEntries_error_of_malformed {ff : String} (hff : ff ≠ "")
    (hpf : parseAlts ff = none) :
    ∀ {entries : List Entry}, (∃ e ∈ entries, e.isRegular = true) →
      planEntries ff entries = .error (.invalidFilter ff) := by
  have hsp : ∀ n, shouldProcessFile n ff = .error (.invalidFilter ff) := by
    intro n
    unfold shouldProcessFile
    rw [if_neg hff, hpf]
  intro entries
  induction entries with
  | nil =>
    rintro ⟨e, he, -⟩
    exact absurd he (List.not_mem_nil e)
  | cons e rest ih =>
    rintro ⟨e', he', hreg'⟩
    unfold planEntries
    cases hb : e.isRegular with
    | true =>
      rw [hsp e.fileName]
      simp only [reduceIte]
    | false =>
      simp only [Bool.false_eq_true, if_false]
      rcases List.mem_cons.mp he' with rfl | hmem
      · rw [hreg'] at hb
        exact Bool.noConfusion hb
      · exact ih ⟨e', hmem, hreg'⟩

theorem runJob_invalid_src_filter (orc : Oracles) (wr : String → Bool)
    (te sf : String) (c : String → Option String) (p content cs : String)
    (hc : c p = some content) (hd : orc.detect content = .ok (some cs))
    (hcs : cs ≠ "UNKNOWN") (hsf : sf ≠ "") (hpf : parseAlts sf = none) :
    (runJob orc wr te sf c p).2.1 = .failed (.invalidSrcFilter sf) := by
  have hde : detectEncoding orc content sf = .error (.invalidSrcFilter sf) := by
    unfold detectEncoding
    rw [hd]
    dsimp only
    rw [if_pos ⟨hsf, hcs⟩, hpf]
  simp [runJob, convertFileStep, hc, hde]

/-- C4 (amended): a malformed filename filter is detected at the first
regular file of the enumeration — before any file is opened — and
aborts the run with the invalid-filter error and zero outcomes, in both
schedulers (it is checked per file, not once up front: a tree with no
regular files never triggers it).  A malformed source-encoding filter,
by contrast, never aborts the run: every dispatched file is still
opened and read, and the invalid-filter error surfaces per file — any
file whose detection yields a usable charset gets a failure outcome
carrying it. -/
theorem c4_amended_filter_validation :
    (∀ (orc : Oracles) (fs : FS) (req : Request)
        (sched : List String → List String),
      req.fileFilter ≠ "" → parseAlts req.fileFilter = none →
      mapEncodingName req.toEncoding ≠ "" → fs.kind = .dir →
      (∃ e ∈ fs.entries, e.isRegular = true) →
      convert orc fs req sched =
        ⟨some (.invalidFilter req.fileFilter), [], [], [], fs.contents⟩ ∧
      convert_single orc fs req =
        ⟨some (.invalidFilter req.fileFilter), [], [], [], fs.contents⟩) ∧
    (∀ (orc : Oracles) (fs : FS) (req : Request)
        (sched : List String → List String)
        (sk : List (String × Status)) (js : List String),
      (∀ l, (sched l).Perm l) →
      mapEncodingName req.toEncoding ≠ "" → fs.kind = .dir →
      planEntries req.fileFilter fs.entries = .ok (sk, js) →
      (fs.entries.map Entry.path).Nodup →
      req.sourceEncodingFilter ≠ "" →
      parseAlts req.sourceEncodingFilter = none →
      (convert orc fs req sched).err = none ∧
      (convert orc fs req sched).reads = sched js ∧
      (∀ p content cs, p ∈ sched js → fs.contents p = some content →
        orc.detect content = .ok (some cs) → cs ≠ "UNKNOWN" →
        (p, Status.failed (.invalidSrcFilter req.sourceEncodingFilter)) ∈
          (convert orc fs req sched).outcomes)) := by
  constructor
  · intro orc fs req sched hff hpf ht hk hreg
    have hpe : planEntries req.fileFilter fs.entries =
        .error (.invalidFilter req.fileFilter) :=
      planEntries_error_of_malformed hff hpf hreg
    have hs := runEntriesSingle_plan_error orc fs.writable
      (mapEncodingName req.toEncoding) req.sourceEncodingFilter
      req.fileFilter fs.entries (.invalidFilter req.fileFilter) hpe
      fs.contents
    unfold convert convert_single
    simp only [if_neg ht, hk, hpe, hs]
    exact ⟨trivial, trivial⟩
  · intro orc fs req sched sk js hsched ht hk hp hn hsf hpsf
    obtain ⟨herr, hreads, hout⟩ :=
      convert_dir_spec orc fs req sched sk js hsched ht hk hp hn
    refine ⟨herr, hreads, ?_⟩
    intro p content cs hpj hc hd hcs
    rw [hout]
    have hst : (runJob orc fs.writable (mapEncodingName req.toEncoding)
        req.sourceEncodingFilter fs.contents p).2.1 =
        .failed (.invalidSrcFilter req.sourceEncodingFilter) :=
      runJob_invalid_src_filter orc fs.writable _ _ fs.contents p content
        cs hc hd hcs hsf hpsf
    refine List.mem_append_right _ (List.mem_map.mpr ⟨p, hpj, ?_⟩)
    dsimp only
    rw [hst]

/-- C4 counterexample: with the malformed source-encoding filter `"("`
the run does not abort and files are read under the malformed filter:
no request-fatal error, every file passing the (empty) filename filter
is opened and read, and each gets a per-file failure outcome carrying
the invalid-filter error.  (The claim demanded that the operation abort
and that no file be read or rewritten under a malformed filter.) -/
theorem c4_malformed_filter_counterexample :
    parseAlts "(" = none ∧
    (convert demoOracles demoFS ⟨"/d", "utf8", "(", ""⟩ id).err = none ∧
    (convert demoOracles demoFS ⟨"/d", "utf8", "(", ""⟩ id).reads =
      ["/d/a.txt", "/d/b.md", "/d/c.csv"] ∧
    (convert demoOracles demoFS ⟨"/d", "utf8", "(", ""⟩ id).outcomes =
      [("/d/a.txt", .failed (.invalidSrcFilter "(")),
       ("/d/b.md", .failed (.invalidSrcFilter "(")),
       ("/d/c.csv", .failed (.invalidSrcFilter "("))] := by
  decide

/-- Witness for `c4_amended_filter_validation`: the malformed filename
filter `"("` aborts the demo run with no reads; the malformed source
filter `"("` leaves the run fatal-error-free and marks `a.txt` with a
per-file invalid-filter failure. -/
theorem c4_amended_filter_validation_witness :
    (("(" ≠ "") ∧ parseAlts "(" = none ∧ mapEncodingName "utf8" ≠ "" ∧
      demoFS.kind = .dir ∧ (∃ e ∈ demoFS.entries, e.isRegular = true)) ∧
    convert demoOracles demoFS ⟨"/d", "utf8", "", "("⟩ id =
      ⟨some (.invalidFilter "("), [], [], [], demoFS.contents⟩ ∧
    ("/d/a.txt", Status.failed (.invalidSrcFilter "(")) ∈
      (convert demoOracles demoFS ⟨"/d", "utf8", "(", ""⟩ id).outcomes :=
  ⟨⟨by decide, by decide, by decide, by decide, by decide⟩,
   (c4_amended_filter_validation.1 demoOracles demoFS
     ⟨"/d", "utf8", "", "("⟩ id (by decide) (by decide) (by decide)
     (by decide) (by decide)).1,
   (c4_amended_filter_validation.2 demoOracles demoFS
     ⟨"/d", "utf8", "(", ""⟩ id [] ["/d/a.txt", "/d/b.md", "/d/c.csv"]
     (fun l => List.Perm.refl l) (by decide) (by decide) (by decide)
     (by decide) (by decide) (by decide)).2.2 "/d/a.txt" "hello" "UTF-8"
     (by decide) (by decide) (by decide) (by decide)⟩
